import Mathlib

/-!
Verification development for document_vision.py.

The Python source is shallowly embedded: pure helpers become Lean
functions, file and document output is modelled as the sequence of
writes performed, and external capabilities (the OCR engine, the PDF
renderer, the filesystem listing) are parameters of the embedded
functions.  Python strings are modelled as Lean strings (lists of
unicode scalar values); OCR output text is modelled as a list of
natural-number code points, since Python strings may carry arbitrary
code points including control characters.
-/

/-! ## ThreadBudget: clamp and number-of-threads computation -/

/-- Embedding of clamp: max(min(num, max_value), min_value) on Python ints. -/
def clamp (num minValue maxValue : ℤ) : ℤ :=
  max (min num maxValue) minValue

/-- Embedding of the Python builtin round on a rational value:
round-half-to-even (bankers rounding).  The source applies round to the
float product cpu_count * percentage; the model uses exact rational
arithmetic, which agrees with the float computation at every point
evaluated in this development. -/
def pyRound (q : ℚ) : ℤ :=
  let f : ℤ := ⌊q⌋
  if q - f < 1/2 then f
  else if 1/2 < q - f then f + 1
  else if f % 2 = 0 then f else f + 1

/-- Embedding of double-underscore numberOfThreads: round the product of
the cpu count (the module-level cpu_count value, here an explicit
parameter) with percentageOfCpus, then clamp to the interval from 0 to
the cpu count. -/
def __numberOfThreads__ (cpuCount : ℕ) (percentageOfCpus : ℚ) : ℤ :=
  clamp (pyRound (cpuCount * percentageOfCpus)) 0 cpuCount

/-! ## Rich-text sanitizer -/

/-- Embedding of valid_xml_char_ordinal, deciding the disjunction in the
order the source writes it.  The argument is the code point of one
character (Python ord c). -/
def valid_xml_char_ordinal (codepoint : ℕ) : Bool :=
  decide ((0x20 ≤ codepoint ∧ codepoint ≤ 0xD7FF) ∨
    (codepoint = 0x9 ∨ codepoint = 0xA ∨ codepoint = 0xD) ∨
    (0xE000 ≤ codepoint ∧ codepoint ≤ 0xFFFD) ∨
    (0x10000 ≤ codepoint ∧ codepoint ≤ 0x10FFFF))

/-- Embedding of makeXMLCompatible: keep exactly the characters whose
code point passes valid_xml_char_ordinal, in order. -/
def makeXMLCompatible (input_string : List ℕ) : List ℕ :=
  input_string.filter valid_xml_char_ordinal

/-- The valid-XML-character set exactly as the specification words it:
the set containing 0x9, 0xA, 0xD together with the inclusive ranges
0x20 to 0xD7FF, 0xE000 to 0xFFFD and 0x10000 to 0x10FFFF. -/
def specValidXMLChar (c : ℕ) : Prop :=
  c = 0x9 ∨ c = 0xA ∨ c = 0xD ∨
    (0x20 ≤ c ∧ c ≤ 0xD7FF) ∨
    (0xE000 ≤ c ∧ c ≤ 0xFFFD) ∨
    (0x10000 ≤ c ∧ c ≤ 0x10FFFF)

instance (c : ℕ) : Decidable (specValidXMLChar c) := by
  unfold specValidXMLChar; infer_instance

/-! ## NaturalSort -/

/-- Group a character list into maximal runs of equal digit-kind: each
element pairs the kind (true for an ASCII digit run) with the run.
Adjacent runs always differ in kind. -/
def chunks : List Char → List (Bool × List Char)
  | [] => []
  | c :: cs =>
    match chunks cs with
    | [] => [(c.isDigit, [c])]
    | (b, ch) :: rest =>
      if c.isDigit = b then (b, c :: ch) :: rest
      else (c.isDigit, [c]) :: (b, ch) :: rest

/-- Whether the last run of a chunk list is a digit run. -/
def lastIsDigit (cs : List (Bool × List Char)) : Bool :=
  match cs.getLast? with
  | some (b, _) => b
  | none => false

/-- Embedding of re.split with the capturing pattern of one or more
ASCII digits: the maximal digit and non-digit runs in order, with an
empty piece in front when the string starts with a digit and at the
back when it ends with one (the non-captured parts at those boundaries
are empty), and a single empty piece for the empty string. -/
def reSplit (s : List Char) : List (List Char) :=
  match chunks s with
  | [] => [[]]
  | (b, ch) :: rest =>
    let cs := (b, ch) :: rest
    (if b then [([] : List Char)] else []) ++ cs.map Prod.snd ++
      (if lastIsDigit cs then [([] : List Char)] else [])

/-- Embedding of os.path.basename for POSIX paths: the suffix after the
last slash. -/
def basename (s : List Char) : List Char :=
  (s.reverse.takeWhile (fun c => c ≠ '/')).reverse

/-- Digit value for the Python int parser.  The builtin int accepts
every unicode decimal digit (category Nd); the model covers the ASCII
block and the Arabic-Indic block 0x660 to 0x669, which is enough for
every string this development evaluates, and elsewhere only narrows the
set of strings the model recognizes as integers. -/
def digitVal (c : Char) : Option ℕ :=
  if c.isDigit then some (c.toNat - 48)
  else if 0x660 ≤ c.toNat ∧ c.toNat ≤ 0x669 then some (c.toNat - 0x660)
  else none

/-- Accumulate the decimal value of a digit run, failing at the first
non-digit. -/
def digitsVal (l : List Char) : Option ℕ :=
  l.foldl (fun acc c => acc.bind (fun n => (digitVal c).map (fun d => 10 * n + d)))
    (some 0)

/-- A nonempty run of digits, as required by the Python int builtin
after sign handling; empty input is rejected. -/
def parseDigits : List Char → Option ℕ
  | [] => none
  | l => digitsVal l

/-- Strip leading and trailing whitespace characters. -/
def stripWs (l : List Char) : List Char :=
  ((l.dropWhile Char.isWhitespace).reverse.dropWhile Char.isWhitespace).reverse

/-- Embedding of the Python int builtin on a string: strip surrounding
whitespace, allow one optional sign, then require a nonempty digit run.
The builtin additionally allows single underscores between digits and
strips further unicode space characters; both omissions only narrow the
set of accepted strings and affect no string evaluated here. -/
def pythonInt (s : List Char) : Option ℤ :=
  match stripWs s with
  | '-' :: rest => (parseDigits rest).map (fun n => -(n : ℤ))
  | '+' :: rest => (parseDigits rest).map (fun n => (n : ℤ))
  | t => (parseDigits t).map (fun n => (n : ℤ))

/-- A Python comparison-key token: tryint yields an int or a string. -/
inductive Token
  | num (n : ℤ)
  | str (s : List Char)
deriving DecidableEq

/-- Embedding of tryint: the int value of the chunk when the Python int
builtin accepts it, otherwise the chunk unchanged. -/
def tryint (s : List Char) : Token :=
  match pythonInt s with
  | some n => Token.num n
  | none => Token.str s

/-- Embedding of alphanum_key: split the basename on digit runs and
apply tryint to every piece. -/
def alphanum_key (x : String) : List Token :=
  (reSplit (basename x.data)).map tryint

/-- Python equality between two key tokens: ints compare by value,
strings by characters, and an int is never equal to a string (Python
equality across these types is False, not an error). -/
def tokEq : Token → Token → Bool
  | Token.num m, Token.num n => decide (m = n)
  | Token.str s, Token.str t => decide (s = t)
  | _, _ => false

/-- Python string less-than: lexicographic by code point. -/
def strLt : List Char → List Char → Bool
  | [], [] => false
  | [], _ :: _ => true
  | _ :: _, [] => false
  | a :: xs, b :: ys => if a = b then strLt xs ys else decide (a < b)

/-- Python less-than between two key tokens: defined within a kind, a
TypeError (modelled as none) across kinds. -/
def tokLt : Token → Token → Option Bool
  | Token.num m, Token.num n => some (decide (m < n))
  | Token.str s, Token.str t => some (strLt s t)
  | _, _ => none

/-- Python list less-than on keys: scan for the first position where the
tokens are not equal and compare there (possibly a TypeError), and
compare lengths when one list is a prefix of the other. -/
def keyLt : List Token → List Token → Option Bool
  | [], [] => some false
  | [], _ :: _ => some true
  | _ :: _, [] => some false
  | a :: xs, b :: ys => if tokEq a b then keyLt xs ys else tokLt a b

/-- One stable insertion step of the modelled Python sort: move x past
every earlier element strictly below it; none when a comparison raises. -/
def insertP {α : Type} (lt : α → α → Option Bool) (x : α) : List α → Option (List α)
  | [] => some [x]
  | y :: ys =>
    match lt y x with
    | some true => (insertP lt x ys).map (fun zs => y :: zs)
    | some false => some (x :: y :: ys)
    | none => none

/-- Stable sort by a partial less-than comparator, modelling the Python
list sort: the sorted list when every comparison performed is defined,
none when one raises a TypeError. -/
def sortP {α : Type} (lt : α → α → Option Bool) : List α → Option (List α)
  | [] => some []
  | x :: xs => (sortP lt xs).bind (insertP lt x)

/-- The comparator sort_nicely uses on paths: compare alphanum keys. -/
def pathLt (a b : String) : Option Bool :=
  keyLt (alphanum_key a) (alphanum_key b)

/-- Embedding of sort_nicely: sort the list by alphanum keys; none when
a comparison between two keys raises a TypeError. -/
def sort_nicely (l : List String) : Option (List String) :=
  sortP pathLt l

/-! ## Output assembly -/

/-- Output modes of the source enum. -/
inductive OutputMode
  | docx
  | txt
deriving DecidableEq

/-- The blank-line delimiter written after every page text: three
newline code points. -/
def delimTxt : List ℕ := [10, 10, 10]

namespace DocumentVision

/-- Embedding of detectImagesToTxt.  The external OCR step
performDetectionOnImage is the parameter ocr; the result is the list of
successive write calls on the output file, which is opened with mode
w+ (created or truncated) before the first write.  The source indexes
imageFilePaths at position 0 (for its unused folderPath variable)
before opening the output file, so the empty list raises an IndexError
first, modelled as none. -/
def detectImagesToTxt (ocr : String → List ℕ) (imageFilePaths : List String) :
    Option (List (List ℕ)) :=
  match imageFilePaths with
  | [] => none
  | _ :: _ => some (imageFilePaths.flatMap (fun p => [ocr p, delimTxt]))

/-- One item added to the in-memory rich-text document. -/
inductive DocxItem
  | paragraph (text : List ℕ)
  | pageBreak
deriving DecidableEq

/-- The in-memory rich-text document together with the number of times
it was persisted with save. -/
structure DocxDoc where
  items : List DocxItem
  saves : ℕ
deriving DecidableEq

/-- Embedding of detectImagesToDocx: for each page in order add one
paragraph holding the sanitized recognized text and one page break to
the in-memory document, then save it exactly once at the end. -/
def detectImagesToDocx (ocr : String → List ℕ) (imageFilePaths : List String) :
    DocxDoc :=
  { items := imageFilePaths.flatMap
      (fun p => [DocxItem.paragraph (makeXMLCompatible (ocr p)), DocxItem.pageBreak])
  , saves := 1 }

/-- The paragraph texts of a document, in order. -/
def paragraphsOf (d : DocxDoc) : List (List ℕ) :=
  d.items.filterMap (fun i =>
    match i with
    | DocxItem.paragraph t => some t
    | DocxItem.pageBreak => none)

/-- The number of page-break markers of a document. -/
def pageBreaksOf (d : DocxDoc) : ℕ :=
  d.items.countP (fun i =>
    match i with
    | DocxItem.paragraph _ => false
    | DocxItem.pageBreak => true)

/-- Actions the detect entry point performs, in order. -/
inductive DetAction
  | convertPdf
  | statDir
  | mkdirDir
  | savePage (i : ℕ)
  | assembleDocx
  | assembleTxt
deriving DecidableEq

/-- Result of the detect entry point: whether the initial assertion
passed, the ordered actions performed, and the page image paths saved. -/
structure DetectResult where
  ok : Bool
  actions : List DetAction
  savedPaths : List String
deriving DecidableEq

/-- Embedding of the Python str.endswith test used by the assertion. -/
def pyEndsWith (s suff : String) : Bool :=
  suff.data.isSuffixOf s.data

/-- Embedding of DocumentVision.detect.  The external pieces are
parameters: dirExists tells whether the scratch directory already
exists (os.stat succeeds), and numPages is the page count the external
pdf renderer returns.  The assertion on the filename runs before any
conversion, directory handling or file write; when it fails the run
stops with no actions performed.  When the scratch directory exists the
stat succeeds and mkdir is skipped; when it is absent the stat raises
and the handler creates the directory, so both cases proceed without
error.  Each page is saved as a jpg named by its zero-based index under
the scratch directory named after the document. -/
def detect (filename : String) (output_mode : OutputMode) (dirExists : Bool)
    (numPages : ℕ) : DetectResult :=
  if pyEndsWith filename ".pdf" then
    { ok := true
    , actions := [DetAction.convertPdf, DetAction.statDir] ++
        (if dirExists then [] else [DetAction.mkdirDir]) ++
        (List.range numPages).map DetAction.savePage ++
        [match output_mode with
         | OutputMode.docx => DetAction.assembleDocx
         | OutputMode.txt => DetAction.assembleTxt]
    , savedPaths := (List.range numPages).map
        (fun i => filename ++ ".d/" ++ toString i ++ ".jpg") }
  else
    { ok := false, actions := [], savedPaths := [] }

end DocumentVision

/-- Embedding of os.path.join for a relative name under a folder
without a trailing separator. -/
def pathJoin (folderPath f : String) : String :=
  folderPath ++ "/" ++ f

/-- Embedding of detectFiles: the folder listing (an external value, in
arbitrary filesystem order, already restricted to plain files) is
joined onto the folder path, sorted naturally, and fed to the assembler
selected by the output mode. -/
def detectFiles (ocr : String → List ℕ) (folderPath : String)
    (listing : List String) (outputmode : OutputMode) :
    Option (DocumentVision.DocxDoc ⊕ List (List ℕ)) :=
  (sort_nicely (listing.map (pathJoin folderPath))).bind
    (fun sorted =>
      match outputmode with
      | OutputMode.docx => some (Sum.inl (DocumentVision.detectImagesToDocx ocr sorted))
      | OutputMode.txt => (DocumentVision.detectImagesToTxt ocr sorted).map Sum.inr)

/-! ## Lemmas and claim theorems -/

lemma valid_xml_char_ordinal_eq_spec (c : ℕ) :
    valid_xml_char_ordinal c = decide (specValidXMLChar c) := by
  unfold valid_xml_char_ordinal specValidXMLChar
  apply decide_eq_decide.mpr
  tauto

/-- C2: makeXMLCompatible removes exactly the characters outside the
valid-XML set of the specification, preserving the remaining characters
in order (the result is the filter of the input by the spec predicate,
hence a sublist of the input); on the input with code points 0x07 and
0x41 it returns the one-character string A (code point 0x41). -/
theorem c2_sanitizer_exact (l : List ℕ) :
    makeXMLCompatible l = l.filter (fun c => decide (specValidXMLChar c)) ∧
    (makeXMLCompatible l).Sublist l ∧
    makeXMLCompatible [0x07, 0x41] = [0x41] := by
  refine ⟨?_, ?_, by decide⟩
  · unfold makeXMLCompatible
    exact List.filter_congr (fun c _ => valid_xml_char_ordinal_eq_spec c)
  · exact List.filter_sublist l

/-- C4: the thread budget is clamped into the interval from 0 to the
cpu count for every cpu count and fraction, equals the clamped rounding
of their product, yields 6 for 8 cpus at fraction 7/10, and yields a
value in the set containing 0 and 1 for a single cpu at fraction 7/10. -/
theorem c4_thread_budget (cpuCount : ℕ) (percentageOfCpus : ℚ) :
    0 ≤ __numberOfThreads__ cpuCount percentageOfCpus ∧
    __numberOfThreads__ cpuCount percentageOfCpus ≤ cpuCount ∧
    __numberOfThreads__ cpuCount percentageOfCpus =
      clamp (pyRound (cpuCount * percentageOfCpus)) 0 cpuCount ∧
    __numberOfThreads__ 8 (7/10) = 6 ∧
    (__numberOfThreads__ 1 (7/10) = 0 ∨ __numberOfThreads__ 1 (7/10) = 1) := by
  refine ⟨?_, ?_, rfl, ?_, ?_⟩
  · exact le_max_right _ _
  · exact max_le (min_le_right _ _) (Int.ofNat_nonneg cpuCount)
  · show clamp (pyRound ((8 : ℕ) * (7/10 : ℚ))) 0 8 = 6
    norm_num [pyRound, clamp]
  · right
    show clamp (pyRound ((1 : ℕ) * (7/10 : ℚ))) 0 1 = 1
    norm_num [pyRound, clamp]

lemma strLt_asymm : ∀ s t, strLt s t = true → strLt t s = false
  | [], [], h => by simp [strLt] at h
  | [], _ :: _, _ => rfl
  | _ :: _, [], h => by simp [strLt] at h
  | a :: xs, b :: ys, h => by
    by_cases hab : a = b
    · subst hab
      simp only [strLt, if_pos rfl] at h ⊢
      exact strLt_asymm xs ys h
    · have hba : ¬ b = a := fun hh => hab hh.symm
      simp only [strLt, if_neg hab, decide_eq_true_eq] at h
      simp only [strLt, if_neg hba, decide_eq_false_iff_not]
      exact lt_asymm h

lemma tokEq_symm (a b : Token) : tokEq a b = tokEq b a := by
  cases a <;> cases b <;> simp [tokEq, eq_comm]

lemma tokLt_asymm (a b : Token) (h : tokLt a b = some true) :
    tokLt b a = some false := by
  cases a with
  | num m =>
    cases b with
    | num n =>
      simp only [tokLt, Option.some_inj, decide_eq_true_eq] at h
      simp only [tokLt, Option.some_inj, decide_eq_false_iff_not]
      omega
    | str t => simp [tokLt] at h
  | str s =>
    cases b with
    | num n => simp [tokLt] at h
    | str t =>
      simp only [tokLt, Option.some_inj] at h
      simp only [tokLt, Option.some_inj]
      exact strLt_asymm s t h

lemma keyLt_asymm : ∀ k1 k2, keyLt k1 k2 = some true → keyLt k2 k1 = some false
  | [], [], h => by simp [keyLt] at h
  | [], _ :: _, _ => rfl
  | _ :: _, [], h => by simp [keyLt] at h
  | a :: xs, b :: ys, h => by
    by_cases he : tokEq a b = true
    · have he2 : tokEq b a = true := by rw [← tokEq_symm]; exact he
      simp only [keyLt, if_pos he] at h
      simp only [keyLt, if_pos he2]
      exact keyLt_asymm xs ys h
    · have he2 : ¬ tokEq b a = true := by rw [← tokEq_symm]; exact he
      simp only [keyLt, if_neg he] at h
      simp only [keyLt, if_neg he2]
      exact tokLt_asymm a b h

lemma insertP_head {α : Type} (lt : α → α → Option Bool) (x : α) :
    ∀ (l l₂ : List α), insertP lt x l = some l₂ →
      l₂.head? = some x ∨ l₂.head? = l.head?
  | [], l₂, h => by
    simp only [insertP, Option.some_inj] at h
    subst h; left; rfl
  | y :: ys, l₂, h => by
    cases hlt : lt y x with
    | none => simp [insertP, hlt] at h
    | some b =>
      cases b with
      | false =>
        simp only [insertP, hlt, Option.some_inj] at h
        subst h; left; rfl
      | true =>
        simp only [insertP, hlt, Option.map_eq_some'] at h
        obtain ⟨zs, _, rfl⟩ := h
        right; rfl

lemma insertP_chain {α : Type} (lt : α → α → Option Bool)
    (hA : ∀ a b, lt a b = some true → lt b a = some false) (x : α) :
    ∀ (l l₂ : List α), List.Chain' (fun a b => lt b a = some false) l →
      insertP lt x l = some l₂ →
      List.Chain' (fun a b => lt b a = some false) l₂
  | [], l₂, _, h => by
    simp only [insertP, Option.some_inj] at h
    subst h; exact List.chain'_singleton x
  | y :: ys, l₂, hc, h => by
    cases hlt : lt y x with
    | none => simp [insertP, hlt] at h
    | some b =>
      cases b with
      | false =>
        simp only [insertP, hlt, Option.some_inj] at h
        subst h
        exact List.Chain'.cons hlt hc
      | true =>
        simp only [insertP, hlt, Option.map_eq_some'] at h
        obtain ⟨zs, hzs, rfl⟩ := h
        have hzc : List.Chain' (fun a b => lt b a = some false) zs :=
          insertP_chain lt hA x ys zs hc.tail hzs
        refine List.chain'_cons'.mpr ⟨?_, hzc⟩
        intro z hz
        rcases insertP_head lt x ys zs hzs with hh | hh
        · rw [hz, Option.some_inj] at hh
          subst hh
          exact hA _ _ hlt
        · rw [hz] at hh
          cases ys with
          | nil => simp at hh
          | cons y2 ys2 =>
            simp only [List.head?_cons, Option.some_inj] at hh
            subst hh
            exact (List.chain'_cons.mp hc).1

lemma sortP_chain {α : Type} (lt : α → α → Option Bool)
    (hA : ∀ a b, lt a b = some true → lt b a = some false) :
    ∀ (l l' : List α), sortP lt l = some l' →
      List.Chain' (fun a b => lt b a = some false) l'
  | [], l', h => by
    simp only [sortP, Option.some_inj] at h
    subst h; exact List.chain'_nil
  | x :: xs, l', h => by
    simp only [sortP, Option.bind_eq_some] at h
    obtain ⟨m, hm, hins⟩ := h
    exact insertP_chain lt hA x m l' (sortP_chain lt hA xs m hm) hins

lemma sortP_fix {α : Type} (lt : α → α → Option Bool) :
    ∀ (l : List α), List.Chain' (fun a b => lt b a = some false) l →
      sortP lt l = some l
  | [], _ => rfl
  | [x], _ => rfl
  | x :: y :: ys, hc => by
    have h1 : sortP lt (y :: ys) = some (y :: ys) :=
      sortP_fix lt (y :: ys) hc.tail
    have h2 : lt y x = some false := (List.chain'_cons.mp hc).1
    have h3 : sortP lt (x :: y :: ys) = (sortP lt (y :: ys)).bind (insertP lt x) := rfl
    rw [h3, h1]
    simp [insertP, h2]

lemma pathLt_asymm (a b : String) (h : pathLt a b = some true) :
    pathLt b a = some false :=
  keyLt_asymm _ _ h

/-- C9: natural sort is idempotent: whenever sort_nicely succeeds on a
list, running it again on the sorted result succeeds and returns that
result unchanged. -/
theorem c9_sort_idempotent (l l' : List String) (h : sort_nicely l = some l') :
    sort_nicely l' = some l' :=
  sortP_fix pathLt l'
    (sortP_chain pathLt (fun a b hab => pathLt_asymm a b hab) l l' h)

/-- Witness for C9 at a concrete unsorted list. -/
theorem c9_sort_idempotent_witness :
    sort_nicely ["p2.jpg", "p1.jpg"] = some ["p1.jpg", "p2.jpg"] ∧
    sort_nicely ["p1.jpg", "p2.jpg"] = some ["p1.jpg", "p2.jpg"] :=
  ⟨by decide, c9_sort_idempotent ["p2.jpg", "p1.jpg"] ["p1.jpg", "p2.jpg"] (by decide)⟩

/-- C1: natural sort compares maximal digit runs in basenames
numerically: the three-element example sorts into numeric order, and
resume-from-folder mode given the folder listing 0.jpg, 1.jpg, 10.jpg,
2.jpg (lexical order) processes the pages in numeric order 0, 1, 2, 10,
as shown by the write sequence of the txt-mode assembler. -/
theorem c1_natural_sort (ocr : String → List ℕ) :
    sort_nicely ["p2.jpg", "p10.jpg", "p1.jpg"] =
      some ["p1.jpg", "p2.jpg", "p10.jpg"] ∧
    detectFiles ocr "imgs" ["0.jpg", "1.jpg", "10.jpg", "2.jpg"] OutputMode.txt =
      some (Sum.inr [ocr "imgs/0.jpg", delimTxt, ocr "imgs/1.jpg", delimTxt,
        ocr "imgs/2.jpg", delimTxt, ocr "imgs/10.jpg", delimTxt]) := by
  constructor
  · decide
  · have hmap : (["0.jpg", "1.jpg", "10.jpg", "2.jpg"] : List String).map
        (pathJoin "imgs") = ["imgs/0.jpg", "imgs/1.jpg", "imgs/10.jpg", "imgs/2.jpg"] := by
      decide
    have hs : sort_nicely ["imgs/0.jpg", "imgs/1.jpg", "imgs/10.jpg", "imgs/2.jpg"] =
        some ["imgs/0.jpg", "imgs/1.jpg", "imgs/2.jpg", "imgs/10.jpg"] := by
      decide
    simp [detectFiles, hmap, hs, DocumentVision.detectImagesToTxt]

/-- C3: the code has no string-form fallback for mismatched token
kinds.  The basename holding the single character U+0663 (an
Arabic-Indic digit, which the Python int builtin accepts although the
regular expression does not split on it) produces the all-number key
consisting of the number three, whereas the basename a produces a text
token; comparing the two keys is a TypeError (none), not a string-form
comparison, and sorting the two-element path list raises instead of
returning a result. -/
theorem c3_mixed_kind_comparison_raises :
    alphanum_key (String.mk [Char.ofNat 0x663]) = [Token.num 3] ∧
    alphanum_key "a" = [Token.str ['a']] ∧
    tokLt (Token.num 3) (Token.str ['a']) = none ∧
    keyLt [Token.num 3] [Token.str ['a']] = none ∧
    sort_nicely [String.mk [Char.ofNat 0x663], "a"] = none := by
  refine ⟨by decide, by decide, rfl, by decide, by decide⟩

lemma txt_writes_join (ocr : String → List ℕ) :
    ∀ (l : List String),
      (l.flatMap (fun p => [ocr p, delimTxt])).flatten =
        (l.map (fun p => ocr p ++ delimTxt)).flatten
  | [] => rfl
  | x :: xs => by
    simp only [List.flatMap_cons, List.map_cons, List.flatten_cons, List.append_assoc,
      List.cons_append, List.nil_append]
    rw [txt_writes_join ocr xs]

/-- C5: plain-text assembly truncates the output file at the start and
appends, for each image path in input order, the recognized text of the
page followed by the blank-line delimiter, with no sanitization: for
every OCR result function the file content is exactly the
concatenation of the raw page texts each followed by the delimiter, and
a three-page input yields exactly the three text blocks in page order. -/
theorem c5_txt_assembly (ocr : String → List ℕ) (paths : List String)
    (h : paths ≠ []) :
    (DocumentVision.detectImagesToTxt ocr paths).map List.flatten =
      some ((paths.map (fun p => ocr p ++ delimTxt)).flatten) ∧
    ∀ p0 p1 p2 : String,
      (DocumentVision.detectImagesToTxt ocr [p0, p1, p2]).map List.flatten =
        some (ocr p0 ++ delimTxt ++ ocr p1 ++ delimTxt ++ ocr p2 ++ delimTxt) := by
  constructor
  · cases paths with
    | nil => exact absurd rfl h
    | cons x xs =>
      simp only [DocumentVision.detectImagesToTxt, Option.map_some']
      rw [txt_writes_join ocr (x :: xs)]
  · intro p0 p1 p2
    simp [DocumentVision.detectImagesToTxt, List.flatten, List.append_assoc]

/-- Witness for C5 at a concrete nonempty path list and OCR function. -/
theorem c5_txt_assembly_witness :
    (DocumentVision.detectImagesToTxt (fun _ => [65]) ["a", "b"]).map List.flatten =
      some (((["a", "b"] : List String).map
        (fun p => (fun _ => [65] : String → List ℕ) p ++ delimTxt)).flatten) ∧
    ∀ p0 p1 p2 : String,
      (DocumentVision.detectImagesToTxt (fun _ => [65]) [p0, p1, p2]).map List.flatten =
        some ([65] ++ delimTxt ++ [65] ++ delimTxt ++ [65] ++ delimTxt) :=
  c5_txt_assembly (fun _ => [65]) ["a", "b"] (by decide)

lemma paragraphsOf_docx (ocr : String → List ℕ) :
    ∀ (l : List String),
      DocumentVision.paragraphsOf (DocumentVision.detectImagesToDocx ocr l) =
        l.map (fun p => makeXMLCompatible (ocr p))
  | [] => rfl
  | x :: xs => by
    have ih := paragraphsOf_docx ocr xs
    simp only [DocumentVision.detectImagesToDocx, DocumentVision.paragraphsOf] at ih ⊢
    simp only [List.flatMap_cons, List.cons_append, List.filterMap_cons, List.map_cons,
      List.nil_append]
    rw [ih]

lemma pageBreaksOf_docx (ocr : String → List ℕ) :
    ∀ (l : List String),
      DocumentVision.pageBreaksOf (DocumentVision.detectImagesToDocx ocr l) = l.length
  | [] => rfl
  | x :: xs => by
    have ih := pageBreaksOf_docx ocr xs
    simp only [DocumentVision.detectImagesToDocx, DocumentVision.pageBreaksOf] at ih ⊢
    simp [List.flatMap_cons, List.countP_cons]
    omega

lemma makeXMLCompatible_all_valid (t : List ℕ) :
    (makeXMLCompatible t).all valid_xml_char_ordinal = true := by
  rw [List.all_eq_true]
  intro c hc
  exact List.of_mem_filter hc

/-- C6: rich-text assembly produces, for every OCR result function and
every ordered list of image paths, a document whose paragraph list is
exactly the sanitized recognized text of each page in input order (so a
list of n pages yields n paragraphs), with exactly n page-break
markers, every paragraph free of characters outside the valid-XML
ranges, and the in-memory document persisted exactly once at the end. -/
theorem c6_docx_assembly (ocr : String → List ℕ) (paths : List String) :
    DocumentVision.paragraphsOf (DocumentVision.detectImagesToDocx ocr paths) =
      paths.map (fun p => makeXMLCompatible (ocr p)) ∧
    (DocumentVision.paragraphsOf (DocumentVision.detectImagesToDocx ocr paths)).length =
      paths.length ∧
    DocumentVision.pageBreaksOf (DocumentVision.detectImagesToDocx ocr paths) =
      paths.length ∧
    (DocumentVision.paragraphsOf (DocumentVision.detectImagesToDocx ocr paths)).all
      (fun t => t.all valid_xml_char_ordinal) = true ∧
    (DocumentVision.detectImagesToDocx ocr paths).saves = 1 := by
  have hp := paragraphsOf_docx ocr paths
  refine ⟨hp, ?_, pageBreaksOf_docx ocr paths, ?_, rfl⟩
  · rw [hp, List.length_map]
  · rw [hp, List.all_eq_true]
    intro t ht
    rcases List.mem_map.mp ht with ⟨p, _, rfl⟩
    exact makeXMLCompatible_all_valid (ocr p)

/-- C10: on the empty image list the two assembly entry points diverge:
the txt assembler raises an IndexError on its first statement, before
the output file is created or written (modelled as none), while the
docx assembler succeeds and persists, exactly once, an empty document
with zero paragraphs and zero page breaks. -/
theorem c10_empty_input_divergence (ocr : String → List ℕ) :
    DocumentVision.detectImagesToTxt ocr [] = none ∧
    DocumentVision.detectImagesToDocx ocr [] =
      { items := [], saves := 1 } ∧
    DocumentVision.paragraphsOf (DocumentVision.detectImagesToDocx ocr []) = [] ∧
    DocumentVision.pageBreaksOf (DocumentVision.detectImagesToDocx ocr []) = 0 := by
  exact ⟨rfl, rfl, rfl, rfl⟩

/-- C7: an input path that does not end in the pdf extension fails the
assertion at the top of detect before any work begins: the run is not
ok, no action (conversion, directory stat or creation, page save,
assembly) is performed, and no page image is written. -/
theorem c7_invalid_path_fails_fast (filename : String) (m : OutputMode)
    (dirExists : Bool) (numPages : ℕ)
    (h : DocumentVision.pyEndsWith filename ".pdf" = false) :
    DocumentVision.detect filename m dirExists numPages =
      { ok := false, actions := [], savedPaths := [] } := by
  simp [DocumentVision.detect, h]

/-- Witness for C7 at a concrete non-pdf path. -/
theorem c7_invalid_path_fails_fast_witness :
    DocumentVision.pyEndsWith "doc.txt" ".pdf" = false ∧
    DocumentVision.detect "doc.txt" OutputMode.txt true 3 =
      { ok := false, actions := [], savedPaths := [] } :=
  ⟨by decide, c7_invalid_path_fails_fast "doc.txt" OutputMode.txt true 3 (by decide)⟩

/-- C8: on a valid pdf path the run succeeds for both states of the
scratch directory (absent or already present, with the directory
created exactly when it was absent), and each page image is saved as a
jpg named by its zero-based index, in document order, under the scratch
directory named after the document. -/
theorem c8_rasterize_scratch_dir (filename : String) (m : OutputMode)
    (dirExists : Bool) (numPages : ℕ)
    (h : DocumentVision.pyEndsWith filename ".pdf" = true) :
    (DocumentVision.detect filename m dirExists numPages).ok = true ∧
    (DocumentVision.detect filename m dirExists numPages).savedPaths =
      (List.range numPages).map (fun i => filename ++ ".d/" ++ toString i ++ ".jpg") ∧
    ((DocumentVision.DetAction.mkdirDir ∈
        (DocumentVision.detect filename m dirExists numPages).actions) ↔
      dirExists = false) := by
  refine ⟨?_, ?_, ?_⟩
  · simp [DocumentVision.detect, h]
  · simp [DocumentVision.detect, h]
  · cases dirExists <;> cases m <;>
      simp [DocumentVision.detect, h, List.mem_append, List.mem_map]

/-- Witness for C8 at a concrete pdf path with two pages and an absent
scratch directory. -/
theorem c8_rasterize_scratch_dir_witness :
    DocumentVision.pyEndsWith "a.pdf" ".pdf" = true ∧
    ((DocumentVision.detect "a.pdf" OutputMode.txt false 2).ok = true ∧
      (DocumentVision.detect "a.pdf" OutputMode.txt false 2).savedPaths =
        (List.range 2).map (fun i => "a.pdf" ++ ".d/" ++ toString i ++ ".jpg") ∧
      ((DocumentVision.DetAction.mkdirDir ∈
          (DocumentVision.detect "a.pdf" OutputMode.txt false 2).actions) ↔
        false = false)) :=
  ⟨by decide, c8_rasterize_scratch_dir "a.pdf" OutputMode.txt false 2 (by decide)⟩
